import Mathlib

/-!
A shallow embedding of the snarkVM coinbase puzzle
(`vm/compiler/src/coinbase_puzzle/mod.rs`) together with proofs about its
difficulty gate, aggregation and verification logic.

The scalar field `F`, the commitment group `G1`, the KZG proof type `Pf` and
the verifying-key type `VK` are abstract type parameters.  The cryptographic
primitives that live outside the embedded file (`hash.rs`, the solution
helpers, `KZG10`, the FFT backend) are bundled in a `Crypto` structure whose
fields are modelled from the specification.  Machine integers are modelled as
`ℕ`; the `u64` difficulty arithmetic uses truncated natural division exactly
as the spec's `d(C) = u64::MAX / sha256d_to_u64(...)`.
-/

/-- The constant `u64::MAX`. -/
def u64MAX : ℕ := 2 ^ 64 - 1

/-- Little-endian byte encoding of width `len`.
Modelled from the spec: the `ToBytes` little-endian serializers of the
console types (`u32`, `u64`, block hashes, addresses) are not part of the
embedded sources; the spec fixes their widths and little-endian layout. -/
def leBytes (len v : ℕ) : List ℕ := (List.range len).map fun i => v / 256 ^ i % 256

/-- `dst[off .. off + src.length].copy_from_slice(src)`: overwrite the slice of
`dst` starting at `off` with `src`, keeping the rest.  This is the semantics of
the byte-buffer writes in `prover_polynomial`. -/
def spliceAt (dst : List ℕ) (off : ℕ) (src : List ℕ) : List ℕ :=
  dst.take off ++ src ++ dst.drop (off + src.length)

/-- The smallest power of two that is `≥ n` (for `n = 0` this is `1`),
as computed by `checked_next_power_of_two`. -/
def nextPow2 (n : ℕ) : ℕ := 2 ^ Nat.clog 2 n

/-- A dense polynomial is its list of coefficients, lowest degree first.
Modelled from the spec: `DensePolynomial` lives in `snarkvm-algorithms`,
outside the embedded sources. -/
def evalPoly {F : Type} [CommRing F] (p : List F) (x : F) : F :=
  p.foldr (fun c acc => c + x * acc) 0

/-- Coefficient-wise polynomial addition (`accumulator += &prover_polynomial`).
Modelled from the spec: `DensePolynomial` addition pads the shorter summand. -/
def polyAdd {F : Type} [CommRing F] : List F → List F → List F
  | [], q => q
  | p, [] => p
  | a :: p, b :: q => (a + b) :: polyAdd p q

/-- The degree of a dense polynomial given by its coefficient list. -/
def polyDegree {F : Type} (p : List F) : ℕ := p.length - 1

/-- `PuzzleConfig { degree: u32 }`. -/
structure PuzzleConfig where
  degree : ℕ

/-- The epoch challenge.
Modelled from the spec: the `EpochChallenge` helper struct is not part of the
embedded sources; it bundles the epoch number, the 32-byte epoch block hash,
the epoch polynomial, its evaluations over the product domain, and the degree
`n` returned by `EpochChallenge::degree()`. -/
structure EpochChallenge (F : Type) where
  epochNumber : ℕ
  epochBlockHash : ℕ
  epochPolynomial : List F
  epochPolynomialEvaluations : List F
  degree : ℕ

/-- `PartialSolution { address, nonce, commitment }`.
Modelled from the spec: the helper struct is outside the embedded sources;
the address is modelled by its 32-byte value, the nonce by its `u64` value. -/
structure PartialSolution (G1 : Type) where
  address : ℕ
  nonce : ℕ
  commitment : G1
deriving DecidableEq

/-- `ProverSolution { partial_solution, proof }`.
Modelled from the spec: the helper struct is outside the embedded sources. -/
structure ProverSolution (G1 Pf : Type) where
  solution : PartialSolution G1
  proof : Pf
deriving DecidableEq

/-- `CoinbaseSolution { partial_solutions, proof }`.
Modelled from the spec: the helper struct is outside the embedded sources. -/
structure CoinbaseSolution (G1 Pf : Type) where
  solutions : List (PartialSolution G1)
  proof : Pf
deriving DecidableEq

/-- The abstract error kinds of section 7 of the specification.  The source
uses `anyhow` string errors; each `bail!` site is mapped to its kind. -/
inductive PuzzleError
  | wrongRole
  | invalidDegree
  | emptySolutions
  | tooManySolutions
  | hidingProof
  | difficultyNotMet
  | malformedChallenge
  | cryptoBackend
deriving DecidableEq

/-- The cryptographic collaborators of the puzzle file.
Modelled from the spec: `sha256d_to_u64`, `hash_commitment`,
`hash_commitments`, `hash_to_polynomial` (from `hash.rs`), the commitment
serializer `to_bytes_le`, the solution helper `to_prover_polynomial` (which
returns a `Result` in the source, hence `Option` here), the proof predicate
`is_hiding`, the pairing check `KZG10::check` and the multi-scalar
multiplication `VariableBase::msm` are all outside the embedded sources.
The two length fields record the spec's length laws: `hash_commitments`
returns `k + 1` scalars for `k` commitments, and `hash_to_polynomial`
returns `n + 1` coefficients for degree `n`. -/
structure Crypto (F G1 Pf VK : Type) where
  sha256d_to_u64 : List ℕ → ℕ
  commitmentToBytesLe : G1 → List ℕ
  hash_commitment : G1 → F
  hash_commitments : List G1 → List F
  hash_commitments_length : ∀ cs, (hash_commitments cs).length = cs.length + 1
  hash_to_polynomial : List ℕ → ℕ → List F
  hash_to_polynomial_length : ∀ b n, (hash_to_polynomial b n).length = n + 1
  to_prover_polynomial : EpochChallenge F → ℕ → ℕ → Option (List F)
  is_hiding : Pf → Bool
  check : VK → G1 → F → F → Pf → Bool
  msm : List G1 → List F → G1

/-- `CoinbaseProvingKey`.  The Lagrange basis, the product domain and the FFT
precomputation are folded into the abstract operations `fft`
(`in_order_fft_with_pc`), `commit_lagrange` (`KZG10::commit_lagrange` against
`lagrange_basis_at_beta_g`) and `open_lagrange` (`KZG10::open_lagrange`
against the basis and the product-domain elements).
Modelled from the spec: those collaborators live outside the embedded
sources. -/
structure CoinbaseProvingKey (F G1 Pf VK : Type) where
  fft : List F → List F
  commit_lagrange : List F → G1
  open_lagrange : List F → F → F → Pf
  verifying_key : VK

/-- The puzzle handle: a tagged sum of the two roles. -/
inductive CoinbasePuzzle (F G1 Pf VK : Type)
  | Prover (pk : CoinbaseProvingKey F G1 Pf VK)
  | Verifier (vk : VK)

/-- The observable shape of the SRS produced by `KZG10::setup`.
Modelled from the spec: `KZG10::setup(max_degree, bounds, hiding, rng)` is
outside the embedded sources; an SRS supporting commitments up to degree `d`
carries `d + 1` powers of `β·G` (the spec's own convention: degree `2n`
means `2n + 1` powers). -/
structure SRSModel where
  numPowersOfBetaG : ℕ
  hidingMode : Bool
  hasDegreeBounds : Bool
deriving DecidableEq

/-- `KZG10::setup(max_degree, bounds, hiding, rng)`, reduced to the shape of
its output.  Modelled from the spec, see `SRSModel`. -/
def kzg10Setup (maxDegree : ℕ) (hasBounds hidingMode : Bool) : SRSModel :=
  ⟨maxDegree + 1, hidingMode, hasBounds⟩

/-- `CoinbasePuzzle::setup(config, rng)`: the source calls
`KZG10::setup((2 * config.degree - 1).try_into()?, &KZGDegreeBounds::None, false, rng)`. -/
def CoinbasePuzzle.setup (config : PuzzleConfig) : SRSModel :=
  kzg10Setup (2 * config.degree - 1) false false

/-- `EvaluationDomain::new(num_coeffs)`.
Modelled from the spec: the FFT evaluation domain is outside the embedded
sources; it is the multiplicative subgroup whose size is the smallest power
of two `≥ num_coeffs`, and it exists exactly when that size is within the
curve's 2-adicity (`log2(size) ≤ twoAdicity`). -/
def evaluationDomainNew (twoAdicity : ℕ) (numCoeffs : ℕ) : Option ℕ :=
  if Nat.clog 2 numCoeffs ≤ twoAdicity then some (nextPow2 numCoeffs) else none

/-- The product-domain construction step of `CoinbasePuzzle::trim`: the source
calls `EvaluationDomain::new((2 * config.degree - 1).try_into()?)` and maps
`None` to the `Invalid degree` error.  The result is the domain size. -/
def CoinbasePuzzle.trimProductDomain (twoAdicity : ℕ) (config : PuzzleConfig) :
    Except PuzzleError ℕ :=
  match evaluationDomainNew twoAdicity (2 * config.degree - 1) with
  | some m => .ok m
  | none => .error .invalidDegree

/-- The individual difficulty value `d(C) = u64::MAX / sha256d_to_u64(C.to_bytes_le())`.
Modelled from the spec: this is the helper `PartialSolution::to_target`,
outside the embedded sources; the division is truncated `u64` division. -/
def commitmentTarget {F G1 Pf VK : Type} (C : Crypto F G1 Pf VK) (c : G1) : ℕ :=
  u64MAX / C.sha256d_to_u64 (C.commitmentToBytesLe c)

/-- The cumulative target `Σ d(C_i)` of a coinbase solution, accumulated as a
`u128`.  Modelled from the spec: this is `CoinbaseSolution::to_cumulative_target`,
outside the embedded sources; the sum of at most `MAX_PROVER_SOLUTIONS` values
below `2^64` cannot overflow a `u128`, so the `ℕ` sum is exact. -/
def cumulativeTarget {F G1 Pf VK : Type} (C : Crypto F G1 Pf VK)
    (cs : CoinbaseSolution G1 Pf) : ℕ :=
  (cs.solutions.map fun s => commitmentTarget C s.commitment).sum

/-- The 76-byte input of `prover_polynomial`, assembled exactly as in the
source: a zeroed 76-byte buffer successively overwritten at offsets 0, 4, 36
and 68 with the little-endian bytes of the epoch number (4), the epoch block
hash (32), the address (32) and the nonce (8). -/
def proverPolynomialInput {F : Type} (ec : EpochChallenge F) (address nonce : ℕ) :
    List ℕ :=
  spliceAt
    (spliceAt
      (spliceAt
        (spliceAt (List.replicate 76 0) 0 (leBytes 4 ec.epochNumber))
        4 (leBytes 32 ec.epochBlockHash))
      36 (leBytes 32 address))
    68 (leBytes 8 nonce)

/-- `CoinbasePuzzle::prover_polynomial`: hash the 76-byte input to a
polynomial of the epoch challenge's degree. -/
def CoinbasePuzzle.prover_polynomial {F G1 Pf VK : Type}
    (C : Crypto F G1 Pf VK) (ec : EpochChallenge F) (address nonce : ℕ) : List F :=
  C.hash_to_polynomial (proverPolynomialInput ec address nonce) ec.degree

/-- Steps 2–3 of `prove`: forward NTT of the prover polynomial onto the
product domain, then pointwise multiplication with the epoch polynomial's
evaluations (`mul_polynomials_in_evaluation_domain`). -/
def productEvaluationsOf {F G1 Pf VK : Type} [CommRing F]
    (pk : CoinbaseProvingKey F G1 Pf VK) (ec : EpochChallenge F) (poly : List F) :
    List F :=
  List.zipWith (· * ·) (pk.fft poly) ec.epochPolynomialEvaluations

/-- Steps 1–4 of `prove` / `prove_abm`: the commitment formed from the prover
polynomial of `(epoch_challenge, address, nonce)`. -/
def CoinbasePuzzle.proveCommitment {F G1 Pf VK : Type} [CommRing F]
    (C : Crypto F G1 Pf VK) (pk : CoinbaseProvingKey F G1 Pf VK)
    (ec : EpochChallenge F) (address nonce : ℕ) : G1 :=
  pk.commit_lagrange
    (productEvaluationsOf pk ec (CoinbasePuzzle.prover_polynomial C ec address nonce))

/-- Steps 5–9 of `prove` / `prove_abm`, starting from the already-formed
commitment: the Fiat–Shamir point, the claimed value
`f(z) · g(z)`, the Lagrange opening, and the non-hiding check. -/
def CoinbasePuzzle.proveTail {F G1 Pf VK : Type} [CommRing F]
    (C : Crypto F G1 Pf VK) (pk : CoinbaseProvingKey F G1 Pf VK)
    (ec : EpochChallenge F) (address nonce : ℕ) (commitment : G1) :
    Except PuzzleError (ProverSolution G1 Pf) :=
  let polynomial := CoinbasePuzzle.prover_polynomial C ec address nonce
  let product_evaluations := productEvaluationsOf pk ec polynomial
  let point := C.hash_commitment commitment
  let product_eval_at_point :=
    evalPoly polynomial point * evalPoly ec.epochPolynomial point
  let proof := pk.open_lagrange product_evaluations point product_eval_at_point
  if C.is_hiding proof = true then .error .hidingProof
  else .ok ⟨⟨address, nonce, commitment⟩, proof⟩

/-- `CoinbasePuzzle::prove`. -/
def CoinbasePuzzle.prove {F G1 Pf VK : Type} [CommRing F]
    (C : Crypto F G1 Pf VK) (p : CoinbasePuzzle F G1 Pf VK)
    (ec : EpochChallenge F) (address nonce : ℕ) :
    Except PuzzleError (ProverSolution G1 Pf) :=
  match p with
  | .Verifier _ => .error .wrongRole
  | .Prover pk =>
    CoinbasePuzzle.proveTail C pk ec address nonce
      (CoinbasePuzzle.proveCommitment C pk ec address nonce)

/-- `CoinbasePuzzle::prove_abm` (the spec's `prove_with_target`): identical to
`prove` except that, right after the commitment is formed, it fails with the
difficulty error when `u64::MAX / sha256d_to_u64(commitment.to_bytes_le()) <
proof_target`. -/
def CoinbasePuzzle.prove_abm {F G1 Pf VK : Type} [CommRing F]
    (C : Crypto F G1 Pf VK) (p : CoinbasePuzzle F G1 Pf VK)
    (proof_target : ℕ) (ec : EpochChallenge F) (address nonce : ℕ) :
    Except PuzzleError (ProverSolution G1 Pf) :=
  match p with
  | .Verifier _ => .error .wrongRole
  | .Prover pk =>
    let commitment := CoinbasePuzzle.proveCommitment C pk ec address nonce
    if commitmentTarget C commitment < proof_target then .error .difficultyNotMet
    else CoinbasePuzzle.proveTail C pk ec address nonce commitment

/-- The outcome of `accumulate`: the source `unwrap`s the prover-polynomial
derivation of each retained solution, so besides `Ok`/`Err` it can panic. -/
inductive AccResult (G1 Pf : Type)
  | panicked
  | failed (e : PuzzleError)
  | ok (cs : CoinbaseSolution G1 Pf)
deriving DecidableEq

/-- The `filter_map` of `accumulate`: drop hiding solutions, derive the prover
polynomial of each retained solution with `.unwrap()` (a failing derivation
panics, modelled by `none`), and pair it with the rebuilt partial solution. -/
def accumulateCollect {F G1 Pf VK : Type} (C : Crypto F G1 Pf VK)
    (ec : EpochChallenge F) :
    List (ProverSolution G1 Pf) → Option (List (List F × PartialSolution G1))
  | [] => some []
  | s :: rest =>
    if C.is_hiding s.proof = true then accumulateCollect C ec rest
    else
      match C.to_prover_polynomial ec s.solution.address s.solution.nonce with
      | none => none
      | some poly =>
        (accumulateCollect C ec rest).map fun l =>
          (poly, ⟨s.solution.address, s.solution.nonce, s.solution.commitment⟩) :: l

/-- Steps 4–8 of `accumulate`, starting from the retained
(polynomial, partial solution) pairs: Fiat–Shamir challenges over the retained
commitments, the random linear combination of the prover polynomials, its
product with the epoch polynomial, and the Lagrange opening at the accumulator
point. -/
def accumulatedProof {F G1 Pf VK : Type} [CommRing F]
    (C : Crypto F G1 Pf VK) (pk : CoinbaseProvingKey F G1 Pf VK)
    (ec : EpochChallenge F) (polys : List (List F))
    (partials : List (PartialSolution G1)) : Pf :=
  let challenges := C.hash_commitments (partials.map fun s => s.commitment)
  let accumulator_point := challenges.getLastD 0
  let rs := challenges.dropLast
  let accumulated_prover_polynomial :=
    (List.zipWith (fun poly r => poly.map (· * r)) polys rs).foldl polyAdd []
  let product_eval_at_challenge_point :=
    evalPoly accumulated_prover_polynomial accumulator_point *
      evalPoly ec.epochPolynomial accumulator_point
  let product_evals := productEvaluationsOf pk ec accumulated_prover_polynomial
  pk.open_lagrange product_evals accumulator_point product_eval_at_challenge_point

/-- Steps 4–9 of `accumulate`, after the `filter_map` has produced the
retained (polynomial, partial solution) pairs: the challenge-count check, the
pop of the accumulator point, the aggregate opening, and the final non-hiding
check. -/
def CoinbasePuzzle.accumulateTail {F G1 Pf VK : Type} [CommRing F]
    (C : Crypto F G1 Pf VK) (pk : CoinbaseProvingKey F G1 Pf VK)
    (ec : EpochChallenge F) (pairs : List (List F × PartialSolution G1)) :
    AccResult G1 Pf :=
  let polys := pairs.map fun pr => pr.1
  let partials := pairs.map fun pr => pr.2
  let challenges := C.hash_commitments (partials.map fun s => s.commitment)
  if challenges.length = partials.length + 1 then
    match challenges.getLast? with
    | none => .failed .malformedChallenge
    | some _ =>
      let proof := accumulatedProof C pk ec polys partials
      if C.is_hiding proof = true then .failed .hidingProof
      else .ok ⟨partials, proof⟩
  else .failed .malformedChallenge

/-- `CoinbasePuzzle::accumulate`. -/
def CoinbasePuzzle.accumulate {F G1 Pf VK : Type} [CommRing F]
    (C : Crypto F G1 Pf VK) (p : CoinbasePuzzle F G1 Pf VK)
    (maxSolutions : ℕ) (ec : EpochChallenge F)
    (prover_solutions : List (ProverSolution G1 Pf)) : AccResult G1 Pf :=
  if prover_solutions.isEmpty = true then .failed .emptySolutions
  else if maxSolutions < prover_solutions.length then .failed .tooManySolutions
  else
    match p with
    | .Verifier _ => .failed .wrongRole
    | .Prover pk =>
      match accumulateCollect C ec prover_solutions with
      | none => .panicked
      | some pairs => CoinbasePuzzle.accumulateTail C pk ec pairs

/-- The per-solution loop of `verify` (step 4): for each partial solution in
order, fail with the difficulty error when its individual target is below the
proof target, otherwise derive its prover polynomial, propagating a failing
derivation as an error. -/
def verifyProverPolynomials {F G1 Pf VK : Type} (C : Crypto F G1 Pf VK)
    (ec : EpochChallenge F) (proof_target : ℕ) :
    List (PartialSolution G1) → Except PuzzleError (List (List F))
  | [] => .ok []
  | s :: rest =>
    if commitmentTarget C s.commitment < proof_target then .error .difficultyNotMet
    else
      match C.to_prover_polynomial ec s.address s.nonce with
      | none => .error .cryptoBackend
      | some poly =>
        match verifyProverPolynomials C ec proof_target rest with
        | .error e => .error e
        | .ok ps => .ok (poly :: ps)

/-- The verifying key retrieval of `verify`: the `Prover` variant supplies its
embedded verifying key, the `Verifier` variant its own. -/
def CoinbasePuzzle.verifyingKeyOf {F G1 Pf VK : Type}
    (p : CoinbasePuzzle F G1 Pf VK) : VK :=
  match p with
  | .Prover pk => pk.verifying_key
  | .Verifier vk => vk

/-- Steps 5–8 of `verify`, after the prover polynomials have been recomputed:
the challenge-count check, the pop of the accumulator point, the accumulator
evaluation and commitment, and the pairing check. -/
def CoinbasePuzzle.verifyTail {F G1 Pf VK : Type} [CommRing F]
    (C : Crypto F G1 Pf VK) (vk : VK) (ec : EpochChallenge F)
    (cs : CoinbaseSolution G1 Pf) (prover_polynomials : List (List F)) :
    Except PuzzleError Bool :=
  let challenge_points := C.hash_commitments (cs.solutions.map fun s => s.commitment)
  if challenge_points.length = cs.solutions.length + 1 then
    match challenge_points.getLast? with
    | none => .error .malformedChallenge
    | some accumulator_point =>
      let rs := challenge_points.dropLast
      let accumulator_evaluation :=
        ((prover_polynomials.zip rs).foldl
            (fun acc pr => acc + evalPoly pr.1 accumulator_point * pr.2) 0) *
          evalPoly ec.epochPolynomial accumulator_point
      let commitments := cs.solutions.map fun s => s.commitment
      let accumulator_commitment := C.msm commitments rs
      .ok (C.check vk accumulator_commitment
        accumulator_point accumulator_evaluation cs.proof)
  else .error .malformedChallenge

/-- `CoinbasePuzzle::verify`. -/
def CoinbasePuzzle.verify {F G1 Pf VK : Type} [CommRing F]
    (C : Crypto F G1 Pf VK) (p : CoinbasePuzzle F G1 Pf VK)
    (maxSolutions : ℕ) (cs : CoinbaseSolution G1 Pf) (ec : EpochChallenge F)
    (coinbase_target proof_target : ℕ) : Except PuzzleError Bool :=
  if cs.solutions.isEmpty = true then .error .emptySolutions
  else if maxSolutions < cs.solutions.length then .error .tooManySolutions
  else if C.is_hiding cs.proof = true then .error .hidingProof
  else if cumulativeTarget C cs < coinbase_target then .error .difficultyNotMet
  else
    match verifyProverPolynomials C ec proof_target cs.solutions with
    | .error e => .error e
    | .ok prover_polynomials =>
      CoinbasePuzzle.verifyTail C (CoinbasePuzzle.verifyingKeyOf p) ec cs
        prover_polynomials

/-- The verdict of steps 5–8 of `verify`, written the way the specification
states them: challenges `r_1…r_k` and accumulator point `z*` from
`hash_commitments` over the commitments in list order, accumulator evaluation
`v* = (Σ r_i · f_i(z*)) · g(z*)` over the recomputed prover polynomials
`f_i`, accumulator commitment `C* = MSM(C_1…C_k, r_1…r_k)`, and the pairing
check `KZG10::check(vk, C*, z*, v*, proof)`. -/
def verifySpecVerdict {F G1 Pf VK : Type} [CommRing F]
    (C : Crypto F G1 Pf VK) (vk : VK) (ec : EpochChallenge F)
    (cs : CoinbaseSolution G1 Pf) : Bool :=
  let cms := cs.solutions.map fun s => s.commitment
  let challenges := C.hash_commitments cms
  let z := challenges.getLastD 0
  let rs := challenges.dropLast
  let fs := cs.solutions.map fun s =>
    (C.to_prover_polynomial ec s.address s.nonce).getD []
  let v := (List.zipWith (fun r f => r * evalPoly f z) rs fs).sum *
    evalPoly ec.epochPolynomial z
  C.check vk (C.msm cms rs) z v cs.proof

/-! ### Concrete instances used by the witnesses -/

/-- A trivial epoch challenge over `ℤ`. -/
def ecZ : EpochChallenge ℤ := ⟨0, 0, [], [], 0⟩

/-- A concrete instantiation of the abstract collaborators over `F = G1 = ℤ`,
`Pf = Bool` (a proof is its hiding flag), `VK = Unit`. -/
def cryptoZ : Crypto ℤ ℤ Bool Unit where
  sha256d_to_u64 := fun _ => 1
  commitmentToBytesLe := fun _ => []
  hash_commitment := fun _ => 0
  hash_commitments := fun cs => List.replicate (cs.length + 1) 0
  hash_commitments_length := fun cs => by simp
  hash_to_polynomial := fun _ n => List.replicate (n + 1) 0
  hash_to_polynomial_length := fun b n => by simp
  to_prover_polynomial := fun _ _ _ => some []
  is_hiding := fun b => b
  check := fun _ _ _ _ _ => true
  msm := fun _ _ => 0

/-- Like `cryptoZ` but with a prover-polynomial derivation that always
fails, exercising the `unwrap` in `accumulate`. -/
def cryptoZfail : Crypto ℤ ℤ Bool Unit :=
  { cryptoZ with to_prover_polynomial := fun _ _ _ => none }

/-- A concrete proving key over the same types. -/
def pkZ : CoinbaseProvingKey ℤ ℤ Bool Unit where
  fft := fun l => l
  commit_lagrange := fun _ => 0
  open_lagrange := fun _ _ _ => false
  verifying_key := ()

/-- `m` is the least power of two that is at least `c`. -/
def IsLeastPow2GE (c m : ℕ) : Prop :=
  (∃ k, m = 2 ^ k) ∧ c ≤ m ∧ ∀ j, c ≤ 2 ^ j → m ≤ 2 ^ j

/-! ### Helper lemmas -/

lemma leBytes_length (len v : ℕ) : (leBytes len v).length = len := by
  simp [leBytes]

lemma spliceAt_append (x y src : List ℕ) (off : ℕ) (h : x.length = off) :
    spliceAt (x ++ y) off src = x ++ src ++ y.drop src.length := by
  subst h
  unfold spliceAt
  rw [List.take_left, ← List.drop_drop, List.drop_left]

lemma proverPolynomialInput_eq {F : Type} (ec : EpochChallenge F)
    (address nonce : ℕ) :
    proverPolynomialInput ec address nonce =
      leBytes 4 ec.epochNumber ++ leBytes 32 ec.epochBlockHash ++
        leBytes 32 address ++ leBytes 8 nonce := by
  unfold proverPolynomialInput
  rw [show List.replicate 76 (0 : ℕ) = [] ++ List.replicate 76 (0 : ℕ) from rfl,
    spliceAt_append [] (List.replicate 76 0) _ 0 rfl]
  simp only [List.nil_append, List.drop_replicate, leBytes_length]
  rw [spliceAt_append _ _ _ 4 (leBytes_length 4 ec.epochNumber)]
  simp only [List.drop_replicate, leBytes_length]
  rw [spliceAt_append _ _ _ 36
    (by simp [leBytes_length] : ((leBytes 4 ec.epochNumber ++
      leBytes 32 ec.epochBlockHash)).length = 36)]
  simp only [List.drop_replicate, leBytes_length]
  rw [spliceAt_append _ _ _ 68
    (by simp [leBytes_length] : ((leBytes 4 ec.epochNumber ++
      leBytes 32 ec.epochBlockHash ++ leBytes 32 address)).length = 68)]
  simp [leBytes_length]

lemma foldl_add_eq_sum {F : Type} [CommRing F] {α : Type} (g : α → F) :
    ∀ (l : List α) (a : F),
      l.foldl (fun acc x => acc + g x) a = a + (l.map g).sum
  | [], a => by simp
  | x :: t, a => by
    simp only [List.foldl_cons, List.map_cons, List.sum_cons]
    rw [foldl_add_eq_sum g t (a + g x), add_assoc]

lemma map_zip_eq_zipWith {α β γ : Type} (h : α → β → γ) :
    ∀ (l₁ : List α) (l₂ : List β),
      (l₁.zip l₂).map (fun pr => h pr.1 pr.2) = List.zipWith h l₁ l₂
  | [], l₂ => by simp
  | _ :: _, [] => by simp
  | a :: t₁, b :: t₂ => by
    simp [List.zip_cons_cons, map_zip_eq_zipWith h t₁ t₂]

lemma zipWith_eval_comm {F : Type} [CommRing F] (z : F) :
    ∀ (polys : List (List F)) (rs : List F),
      List.zipWith (fun p r => evalPoly p z * r) polys rs =
        List.zipWith (fun r p => r * evalPoly p z) rs polys
  | [], _ => by simp
  | _ :: _, [] => by simp
  | p :: tp, r :: tr => by
    simp only [List.zipWith_cons_cons]
    rw [mul_comm, zipWith_eval_comm z tp tr]

lemma verifyProverPolynomials_ok {F G1 Pf VK : Type} (C : Crypto F G1 Pf VK)
    (ec : EpochChallenge F) (pt : ℕ) :
    ∀ (l : List (PartialSolution G1)),
      (∀ s ∈ l, (C.to_prover_polynomial ec s.address s.nonce).isSome = true) →
      (∀ s ∈ l, pt ≤ commitmentTarget C s.commitment) →
      verifyProverPolynomials C ec pt l =
        .ok (l.map fun s => (C.to_prover_polynomial ec s.address s.nonce).getD [])
  | [], _, _ => rfl
  | s :: rest, hTot, htarget => by
    have hs : ¬ commitmentTarget C s.commitment < pt :=
      not_lt.mpr (htarget s (by simp))
    obtain ⟨poly, hpoly⟩ :=
      Option.isSome_iff_exists.mp (hTot s (by simp))
    have ih := verifyProverPolynomials_ok C ec pt rest
      (fun x hx => hTot x (by simp [hx])) (fun x hx => htarget x (by simp [hx]))
    simp [verifyProverPolynomials, hs, hpoly, ih]

lemma verifyProverPolynomials_error_iff {F G1 Pf VK : Type}
    (C : Crypto F G1 Pf VK) (ec : EpochChallenge F) (pt : ℕ) :
    ∀ (l : List (PartialSolution G1)),
      (∀ s ∈ l, (C.to_prover_polynomial ec s.address s.nonce).isSome = true) →
      ((∃ e, verifyProverPolynomials C ec pt l = .error e) ↔
        ∃ s ∈ l, commitmentTarget C s.commitment < pt)
  | [], _ => by simp [verifyProverPolynomials]
  | s :: rest, hTot => by
    by_cases hs : commitmentTarget C s.commitment < pt
    · simp only [verifyProverPolynomials, if_pos hs]
      exact ⟨fun _ => ⟨s, by simp, hs⟩, fun _ => ⟨.difficultyNotMet, rfl⟩⟩
    · obtain ⟨poly, hpoly⟩ := Option.isSome_iff_exists.mp (hTot s (by simp))
      have ih := verifyProverPolynomials_error_iff C ec pt rest
        (fun x hx => hTot x (by simp [hx]))
      simp only [verifyProverPolynomials, if_neg hs, hpoly]
      constructor
      · rintro ⟨e, he⟩
        rcases hrec : verifyProverPolynomials C ec pt rest with e' | ps
        · obtain ⟨x, hx, hxlt⟩ := ih.mp ⟨e', hrec⟩
          exact ⟨x, by simp [hx], hxlt⟩
        · rw [hrec] at he; simp at he
      · rintro ⟨x, hx, hxlt⟩
        rcases List.mem_cons.mp hx with rfl | hx'
        · exact absurd hxlt hs
        · obtain ⟨e, he⟩ := ih.mpr ⟨x, hx', hxlt⟩
          rw [he]
          exact ⟨e, rfl⟩

lemma verifyProverPolynomials_error_kind {F G1 Pf VK : Type}
    (C : Crypto F G1 Pf VK) (ec : EpochChallenge F) (pt : ℕ) :
    ∀ (l : List (PartialSolution G1)) (e : PuzzleError),
      verifyProverPolynomials C ec pt l = .error e →
      e = .difficultyNotMet ∨ e = .cryptoBackend
  | [], e => by simp [verifyProverPolynomials]
  | s :: rest, e => by
    intro he
    by_cases hs : commitmentTarget C s.commitment < pt
    · simp only [verifyProverPolynomials, if_pos hs] at he
      exact Or.inl (by injection he with h; exact h.symm)
    · simp only [verifyProverPolynomials, if_neg hs] at he
      rcases hp : C.to_prover_polynomial ec s.address s.nonce with _ | poly
      · rw [hp] at he
        exact Or.inr (by injection he with h; exact h.symm)
      · rw [hp] at he
        rcases hrec : verifyProverPolynomials C ec pt rest with e' | ps
        · rw [hrec] at he
          injection he with h
          exact h ▸ verifyProverPolynomials_error_kind C ec pt rest e' hrec
        · rw [hrec] at he; simp at he

lemma accumulateCollect_some {F G1 Pf VK : Type} (C : Crypto F G1 Pf VK)
    (ec : EpochChallenge F) :
    ∀ (l : List (ProverSolution G1 Pf)),
      (∀ s ∈ l, C.is_hiding s.proof = false →
        (C.to_prover_polynomial ec s.solution.address s.solution.nonce).isSome = true) →
      accumulateCollect C ec l =
        some ((l.filter fun s => !C.is_hiding s.proof).map fun s =>
          ((C.to_prover_polynomial ec s.solution.address s.solution.nonce).getD [],
            s.solution))
  | [], _ => rfl
  | s :: rest, hTot => by
    have ih := accumulateCollect_some C ec rest
      (fun x hx => hTot x (by simp [hx]))
    by_cases hh : C.is_hiding s.proof = true
    · simp [accumulateCollect, hh, List.filter_cons, ih]
    · have hh' : C.is_hiding s.proof = false := by
        cases h : C.is_hiding s.proof
        · rfl
        · exact absurd h hh
      obtain ⟨poly, hpoly⟩ := Option.isSome_iff_exists.mp (hTot s (by simp) hh')
      simp [accumulateCollect, hh, hh', List.filter_cons, ih, hpoly]

lemma accumulateCollect_none {F G1 Pf VK : Type} (C : Crypto F G1 Pf VK)
    (ec : EpochChallenge F) :
    ∀ (l : List (ProverSolution G1 Pf)),
      (∃ s ∈ l, C.is_hiding s.proof = false ∧
        C.to_prover_polynomial ec s.solution.address s.solution.nonce = none) →
      accumulateCollect C ec l = none
  | [], h => by simp at h
  | s :: rest, h => by
    obtain ⟨x, hx, hxh, hxn⟩ := h
    rcases List.mem_cons.mp hx with rfl | hx'
    · simp [accumulateCollect, hxh, hxn]
    · have ih := accumulateCollect_none C ec rest ⟨x, hx', hxh, hxn⟩
      by_cases hh : C.is_hiding s.proof = true
      · simp [accumulateCollect, hh, ih]
      · rcases hp : C.to_prover_polynomial ec s.solution.address s.solution.nonce
          with _ | poly
        · simp [accumulateCollect, hh, hp]
        · simp [accumulateCollect, hh, hp, ih]

lemma hash_commitments_concat {F G1 Pf VK : Type} (C : Crypto F G1 Pf VK)
    (cms : List G1) :
    ∃ L z, C.hash_commitments cms = L ++ [z] ∧ L.length = cms.length := by
  rcases List.eq_nil_or_concat (C.hash_commitments cms) with hnil | ⟨L, z, hconcat⟩
  · have hlen := C.hash_commitments_length cms
    rw [hnil] at hlen
    simp at hlen
  · refine ⟨L, z, by simpa [List.concat_eq_append] using hconcat, ?_⟩
    have hlen := C.hash_commitments_length cms
    rw [show C.hash_commitments cms = L ++ [z] from by
      simpa [List.concat_eq_append] using hconcat] at hlen
    simpa using hlen

lemma verifyTail_ok {F G1 Pf VK : Type} [CommRing F]
    (C : Crypto F G1 Pf VK) (vk : VK) (ec : EpochChallenge F)
    (cs : CoinbaseSolution G1 Pf) :
    CoinbasePuzzle.verifyTail C vk ec cs
        (cs.solutions.map fun s => (C.to_prover_polynomial ec s.address s.nonce).getD []) =
      .ok (verifySpecVerdict C vk ec cs) := by
  obtain ⟨L, z, hL, hLlen⟩ :=
    hash_commitments_concat C (cs.solutions.map fun s => s.commitment)
  have hkey : (C.hash_commitments (cs.solutions.map fun s => s.commitment)).length =
      cs.solutions.length + 1 := by
    simpa using C.hash_commitments_length (cs.solutions.map fun s => s.commitment)
  unfold CoinbasePuzzle.verifyTail verifySpecVerdict
  simp only [hL, List.getLast?_concat, List.dropLast_concat,
    List.getLastD_eq_getLast?, Option.getD_some]
  rw [if_pos (by rw [← hL]; exact hkey)]
  congr 1
  congr 1
  rw [foldl_add_eq_sum, zero_add,
    map_zip_eq_zipWith (fun p r => evalPoly p z * r), zipWith_eval_comm]

lemma verify_ok_case {F G1 Pf VK : Type} [CommRing F]
    (C : Crypto F G1 Pf VK) (p : CoinbasePuzzle F G1 Pf VK)
    (maxSolutions : ℕ) (cs : CoinbaseSolution G1 Pf) (ec : EpochChallenge F)
    (coinbase_target proof_target : ℕ)
    (hne : cs.solutions ≠ [])
    (hlen : ¬ maxSolutions < cs.solutions.length)
    (hhide : ¬ C.is_hiding cs.proof = true)
    (hcum : ¬ cumulativeTarget C cs < coinbase_target)
    (htarget : ∀ s ∈ cs.solutions, proof_target ≤ commitmentTarget C s.commitment)
    (hTot : ∀ s ∈ cs.solutions,
      (C.to_prover_polynomial ec s.address s.nonce).isSome = true) :
    CoinbasePuzzle.verify C p maxSolutions cs ec coinbase_target proof_target =
      .ok (verifySpecVerdict C (CoinbasePuzzle.verifyingKeyOf p) ec cs) := by
  unfold CoinbasePuzzle.verify
  rw [if_neg (by simp [List.isEmpty_iff, hne]), if_neg hlen, if_neg hhide,
    if_neg hcum, verifyProverPolynomials_ok C ec proof_target cs.solutions hTot htarget]
  exact verifyTail_ok C (CoinbasePuzzle.verifyingKeyOf p) ec cs

lemma accumulateTail_ne_panicked {F G1 Pf VK : Type} [CommRing F]
    (C : Crypto F G1 Pf VK) (pk : CoinbaseProvingKey F G1 Pf VK)
    (ec : EpochChallenge F) (pairs : List (List F × PartialSolution G1)) :
    CoinbasePuzzle.accumulateTail C pk ec pairs ≠ .panicked := by
  unfold CoinbasePuzzle.accumulateTail
  dsimp only
  split
  · split
    · simp
    · split <;> simp
  · simp

lemma accumulateTail_ok {F G1 Pf VK : Type} [CommRing F]
    (C : Crypto F G1 Pf VK) (pk : CoinbaseProvingKey F G1 Pf VK)
    (ec : EpochChallenge F) (pairs : List (List F × PartialSolution G1))
    (hOpen : ∀ evals z v, C.is_hiding (pk.open_lagrange evals z v) = false) :
    CoinbasePuzzle.accumulateTail C pk ec pairs =
      .ok ⟨pairs.map fun pr => pr.2,
        accumulatedProof C pk ec (pairs.map fun pr => pr.1)
          (pairs.map fun pr => pr.2)⟩ := by
  obtain ⟨L, z, hL, hLlen⟩ :=
    hash_commitments_concat C ((pairs.map fun pr => pr.2).map fun s => s.commitment)
  have hkey : (C.hash_commitments
      ((pairs.map fun pr => pr.2).map fun s => s.commitment)).length =
      (pairs.map fun pr => pr.2).length + 1 := by
    simpa using C.hash_commitments_length
      ((pairs.map fun pr => pr.2).map fun s => s.commitment)
  have hnh : C.is_hiding (accumulatedProof C pk ec (pairs.map fun pr => pr.1)
      (pairs.map fun pr => pr.2)) = false := by
    unfold accumulatedProof
    exact hOpen _ _ _
  unfold CoinbasePuzzle.accumulateTail
  rw [if_pos hkey]
  rw [hL, List.getLast?_concat]
  simp only [hnh, Bool.false_eq_true, if_neg]
  simp

lemma clog2_three : Nat.clog 2 3 = 2 :=
  le_antisymm
    ((Nat.le_pow_iff_clog_le one_lt_two).mp (by norm_num))
    ((Nat.pow_lt_iff_lt_clog one_lt_two).mp (by norm_num : (2 : ℕ) ^ 1 < 3))

lemma clog2_five : Nat.clog 2 5 = 3 :=
  le_antisymm
    ((Nat.le_pow_iff_clog_le one_lt_two).mp (by norm_num))
    ((Nat.pow_lt_iff_lt_clog one_lt_two).mp (by norm_num : (2 : ℕ) ^ 2 < 5))

/-! ### Claim theorems -/

/-- C4 (counterexample): the claim states that `setup` requests `2n + 1`
powers of `β·G` from the KZG setup; at degree `n = 1` the source passes the
maximum degree `2·1 - 1 = 1` to `KZG10::setup`, which yields `2` powers,
not `3`. -/
theorem setup_powers_counterexample :
    (CoinbasePuzzle.setup ⟨1⟩).numPowersOfBetaG ≠ 2 * 1 + 1 := by
  decide

/-- C4 (amended): for every `PuzzleConfig` with degree `n ≥ 1`,
`setup(config, rng)` requests a KZG SRS of maximum degree `2n - 1`,
i.e. `2n` powers of `β·G`, in non-hiding mode with no degree bounds. -/
theorem setup_powers_amended (n : ℕ) (h : 1 ≤ n) :
    CoinbasePuzzle.setup ⟨n⟩ =
      { numPowersOfBetaG := 2 * n, hidingMode := false, hasDegreeBounds := false } := by
  unfold CoinbasePuzzle.setup kzg10Setup
  have h2 : 2 * n - 1 + 1 = 2 * n := by omega
  rw [h2]

/-- Witness for C4 (amended) at `n = 4`. -/
theorem setup_powers_amended_witness :
    CoinbasePuzzle.setup ⟨4⟩ =
      { numPowersOfBetaG := 8, hidingMode := false, hasDegreeBounds := false } :=
  setup_powers_amended 4 (by decide)

/-- C5 (counterexample): the claim states that `trim` builds a product domain
of size `nextPow2(2n + 1)`; at degree `n = 2` the source builds the domain
from `2·2 - 1 = 3` coefficients, giving size `4`, which is not even `≥ 2n + 1 = 5`. -/
theorem trim_domain_counterexample :
    CoinbasePuzzle.trimProductDomain 47 ⟨2⟩ = .ok 4 ∧ ¬ (2 * 2 + 1 ≤ 4) := by
  constructor
  · unfold CoinbasePuzzle.trimProductDomain evaluationDomainNew nextPow2
    norm_num [clog2_three]
  · decide

/-- C5 (amended): for every `PuzzleConfig` with degree `n ≥ 1`, `trim`
constructs a product evaluation domain whose size `m` is the smallest power
of two `≥ 2n - 1`, and fails with an `InvalidDegree` error exactly when no
such domain exists for the curve's 2-adicity. -/
theorem trim_domain_amended (twoAdicity n : ℕ) (_h : 1 ≤ n) :
    (∀ m, CoinbasePuzzle.trimProductDomain twoAdicity ⟨n⟩ = .ok m →
      IsLeastPow2GE (2 * n - 1) m) ∧
    (CoinbasePuzzle.trimProductDomain twoAdicity ⟨n⟩ = .error .invalidDegree ↔
      twoAdicity < Nat.clog 2 (2 * n - 1)) := by
  unfold CoinbasePuzzle.trimProductDomain evaluationDomainNew
  by_cases hle : Nat.clog 2 (2 * n - 1) ≤ twoAdicity
  · rw [if_pos hle]
    constructor
    · intro m hm
      have hm' : nextPow2 (2 * n - 1) = m := by
        injection hm
      rw [← hm']
      refine ⟨⟨Nat.clog 2 (2 * n - 1), rfl⟩, Nat.le_pow_clog one_lt_two _, ?_⟩
      intro j hj
      exact Nat.pow_le_pow_right (by norm_num)
        ((Nat.le_pow_iff_clog_le one_lt_two).mp hj)
    · simp [Nat.not_lt.mpr hle]
  · rw [if_neg hle]
    constructor
    · intro m hm
      cases hm
    · simp [Nat.not_le.mp hle]

/-- Witness for C5 (amended) at `twoAdicity = 47`, `n = 3`: the produced
domain size `8` is the least power of two `≥ 5`. -/
theorem trim_domain_amended_witness : IsLeastPow2GE (2 * 3 - 1) 8 := by
  have hok : CoinbasePuzzle.trimProductDomain 47 ⟨3⟩ = .ok 8 := by
    unfold CoinbasePuzzle.trimProductDomain evaluationDomainNew nextPow2
    norm_num [clog2_five]
  exact (trim_domain_amended 47 3 (by norm_num)).1 8 hok

/-- C6: for every epoch challenge, address and nonce, `prover_polynomial`
hashes exactly the 76-byte little-endian input
`[ epoch_number (4 bytes at offset 0) ‖ epoch_block_hash (32 bytes at offset 4)
‖ address (32 bytes at offset 36) ‖ nonce (8 bytes at offset 68) ]` through
`hash_to_polynomial` with the epoch challenge's degree `n`, producing a
polynomial of degree at most `n`. -/
theorem prover_polynomial_input_layout {F G1 Pf VK : Type}
    (C : Crypto F G1 Pf VK) (ec : EpochChallenge F) (address nonce : ℕ) :
    CoinbasePuzzle.prover_polynomial C ec address nonce =
      C.hash_to_polynomial
        (leBytes 4 ec.epochNumber ++ leBytes 32 ec.epochBlockHash ++
          leBytes 32 address ++ leBytes 8 nonce) ec.degree ∧
    (proverPolynomialInput ec address nonce).length = 76 ∧
    polyDegree (CoinbasePuzzle.prover_polynomial C ec address nonce) ≤ ec.degree := by
  refine ⟨?_, ?_, ?_⟩
  · rw [CoinbasePuzzle.prover_polynomial, proverPolynomialInput_eq]
  · rw [proverPolynomialInput_eq]
    simp [leBytes_length]
  · rw [CoinbasePuzzle.prover_polynomial]
    simp [polyDegree, C.hash_to_polynomial_length]

/-- C7: `accumulate` returns the empty-solutions error on every empty input
list and the too-many-solutions error on every list longer than
`MAX_PROVER_SOLUTIONS`, for every choice of collaborators and handle (so
before any cryptographic work) and without producing a `CoinbaseSolution`. -/
theorem accumulate_empty_and_oversize {F G1 Pf VK : Type} [CommRing F]
    (C : Crypto F G1 Pf VK) (p : CoinbasePuzzle F G1 Pf VK) (maxSolutions : ℕ)
    (ec : EpochChallenge F) (sols : List (ProverSolution G1 Pf)) :
    CoinbasePuzzle.accumulate C p maxSolutions ec [] = .failed .emptySolutions ∧
    (maxSolutions < sols.length →
      CoinbasePuzzle.accumulate C p maxSolutions ec sols =
        .failed .tooManySolutions) := by
  constructor
  · rfl
  · intro hlen
    have hne : sols.isEmpty = false := by
      cases sols
      · simp at hlen
      · rfl
    unfold CoinbasePuzzle.accumulate
    rw [hne]
    simp [hlen]

/-- Witness for C7 at `maxSolutions = 0` with a singleton list. -/
theorem accumulate_empty_and_oversize_witness :
    CoinbasePuzzle.accumulate cryptoZ (CoinbasePuzzle.Prover pkZ) 0 ecZ
        ([] : List (ProverSolution ℤ Bool)) = .failed .emptySolutions ∧
    CoinbasePuzzle.accumulate cryptoZ (CoinbasePuzzle.Prover pkZ) 0 ecZ
        [⟨⟨0, 0, 0⟩, false⟩] = .failed .tooManySolutions := by
  obtain ⟨h1, h2⟩ := accumulate_empty_and_oversize cryptoZ
    (CoinbasePuzzle.Prover pkZ) 0 ecZ [⟨⟨0, 0, 0⟩, false⟩]
  exact ⟨h1, h2 (by decide)⟩

/-- C1: if `prove_abm` (the spec's `prove_with_target`) returns `Ok(s)` then
`u64::MAX / sha256d_to_u64(s.commitment.to_bytes_le()) ≥ proof_target`; and
whenever that quotient is below `proof_target` for the commitment formed after
step 4, the call returns the `DifficultyNotMet` error without computing the
Fiat–Shamir point or the opening proof — witnessed by the result being the
same for any second collaborator structure `C'` that agrees with `C` on the
pre-gate primitives (`hash_to_polynomial`, the commitment serializer and
`sha256d_to_u64`) but may differ arbitrarily on `hash_commitment` and on the
opening. -/
theorem prove_abm_difficulty_gate {F G1 Pf VK : Type} [CommRing F]
    (C C' : Crypto F G1 Pf VK) (pk : CoinbaseProvingKey F G1 Pf VK)
    (proof_target : ℕ) (ec : EpochChallenge F) (address nonce : ℕ)
    (s : ProverSolution G1 Pf)
    (hhash : C'.hash_to_polynomial = C.hash_to_polynomial)
    (hbytes : C'.commitmentToBytesLe = C.commitmentToBytesLe)
    (hsha : C'.sha256d_to_u64 = C.sha256d_to_u64) :
    (CoinbasePuzzle.prove_abm C (.Prover pk) proof_target ec address nonce =
        .ok s →
      proof_target ≤ commitmentTarget C s.solution.commitment) ∧
    (commitmentTarget C (CoinbasePuzzle.proveCommitment C pk ec address nonce) <
        proof_target →
      CoinbasePuzzle.prove_abm C (.Prover pk) proof_target ec address nonce =
        .error .difficultyNotMet ∧
      CoinbasePuzzle.prove_abm C' (.Prover pk) proof_target ec address nonce =
        .error .difficultyNotMet) := by
  have hpoly : CoinbasePuzzle.prover_polynomial C' ec address nonce =
      CoinbasePuzzle.prover_polynomial C ec address nonce := by
    unfold CoinbasePuzzle.prover_polynomial
    rw [hhash]
  have htgt : ∀ g : G1, commitmentTarget C' g = commitmentTarget C g := by
    intro g
    unfold commitmentTarget
    rw [hbytes, hsha]
  constructor
  · intro hok
    unfold CoinbasePuzzle.prove_abm at hok
    dsimp only at hok
    by_cases hlt : commitmentTarget C
        (CoinbasePuzzle.proveCommitment C pk ec address nonce) < proof_target
    · rw [if_pos hlt] at hok
      cases hok
    · rw [if_neg hlt] at hok
      unfold CoinbasePuzzle.proveTail at hok
      dsimp only at hok
      split at hok
      · cases hok
      · injection hok with hok
        rw [← hok]
        exact not_lt.mp hlt
  · intro hlt
    constructor
    · unfold CoinbasePuzzle.prove_abm
      dsimp only
      rw [if_pos hlt]
    · have hlt' : commitmentTarget C'
          (CoinbasePuzzle.proveCommitment C' pk ec address nonce) < proof_target := by
        unfold CoinbasePuzzle.proveCommitment
        rw [hpoly, htgt]
        unfold CoinbasePuzzle.proveCommitment at hlt
        exact hlt
      unfold CoinbasePuzzle.prove_abm
      dsimp only
      rw [if_pos hlt']

/-- Witness for C1: with the trivial collaborators over `ℤ` and a proof
target above `u64::MAX`, the gate fires and `prove_abm` fails fast. -/
theorem prove_abm_difficulty_gate_witness :
    CoinbasePuzzle.prove_abm cryptoZ (CoinbasePuzzle.Prover pkZ) (u64MAX + 1)
        ecZ 0 0 = .error .difficultyNotMet :=
  ((prove_abm_difficulty_gate cryptoZ cryptoZ pkZ (u64MAX + 1) ecZ 0 0
      ⟨⟨0, 0, 0⟩, false⟩ rfl rfl rfl).2 (by decide)).1

/-- C2: assuming the (spec-modelled, infallible) prover-polynomial derivation
succeeds on every listed solution, `verify` returns `Err` exactly when the
partial-solution list is empty, its length exceeds `MAX_PROVER_SOLUTIONS`,
the coinbase proof is hiding, the cumulative target is below
`coinbase_target`, or some individual target is below `proof_target`; on
inputs passing all these checks it returns `Ok(b)`. -/
theorem verify_error_conditions {F G1 Pf VK : Type} [CommRing F]
    (C : Crypto F G1 Pf VK) (p : CoinbasePuzzle F G1 Pf VK)
    (maxSolutions : ℕ) (cs : CoinbaseSolution G1 Pf) (ec : EpochChallenge F)
    (coinbase_target proof_target : ℕ)
    (hTot : ∀ s ∈ cs.solutions,
      (C.to_prover_polynomial ec s.address s.nonce).isSome = true) :
    ((∃ e, CoinbasePuzzle.verify C p maxSolutions cs ec coinbase_target
        proof_target = .error e) ↔
      (cs.solutions = [] ∨ maxSolutions < cs.solutions.length ∨
        C.is_hiding cs.proof = true ∨
        cumulativeTarget C cs < coinbase_target ∨
        ∃ s ∈ cs.solutions, commitmentTarget C s.commitment < proof_target)) ∧
    (¬ (cs.solutions = [] ∨ maxSolutions < cs.solutions.length ∨
        C.is_hiding cs.proof = true ∨
        cumulativeTarget C cs < coinbase_target ∨
        ∃ s ∈ cs.solutions, commitmentTarget C s.commitment < proof_target) →
      ∃ b, CoinbasePuzzle.verify C p maxSolutions cs ec coinbase_target
        proof_target = .ok b) := by
  by_cases h1 : cs.solutions = []
  · have hv : CoinbasePuzzle.verify C p maxSolutions cs ec coinbase_target
        proof_target = .error .emptySolutions := by
      unfold CoinbasePuzzle.verify
      rw [if_pos (List.isEmpty_iff.mpr h1)]
    exact ⟨⟨fun _ => Or.inl h1, fun _ => ⟨_, hv⟩⟩,
      fun hnd => absurd (Or.inl h1) hnd⟩
  · have hne1 : ¬ cs.solutions.isEmpty = true := by
      simp [List.isEmpty_iff, h1]
    by_cases h2 : maxSolutions < cs.solutions.length
    · have hv : CoinbasePuzzle.verify C p maxSolutions cs ec coinbase_target
          proof_target = .error .tooManySolutions := by
        unfold CoinbasePuzzle.verify
        rw [if_neg hne1, if_pos h2]
      exact ⟨⟨fun _ => Or.inr (Or.inl h2), fun _ => ⟨_, hv⟩⟩,
        fun hnd => absurd (Or.inr (Or.inl h2)) hnd⟩
    · by_cases h3 : C.is_hiding cs.proof = true
      · have hv : CoinbasePuzzle.verify C p maxSolutions cs ec coinbase_target
            proof_target = .error .hidingProof := by
          unfold CoinbasePuzzle.verify
          rw [if_neg hne1, if_neg h2, if_pos h3]
        exact ⟨⟨fun _ => Or.inr (Or.inr (Or.inl h3)), fun _ => ⟨_, hv⟩⟩,
          fun hnd => absurd (Or.inr (Or.inr (Or.inl h3))) hnd⟩
      · by_cases h4 : cumulativeTarget C cs < coinbase_target
        · have hv : CoinbasePuzzle.verify C p maxSolutions cs ec coinbase_target
              proof_target = .error .difficultyNotMet := by
            unfold CoinbasePuzzle.verify
            rw [if_neg hne1, if_neg h2, if_neg h3, if_pos h4]
          exact ⟨⟨fun _ => Or.inr (Or.inr (Or.inr (Or.inl h4))),
            fun _ => ⟨_, hv⟩⟩,
            fun hnd => absurd (Or.inr (Or.inr (Or.inr (Or.inl h4)))) hnd⟩
        · by_cases h5 : ∃ s ∈ cs.solutions,
              commitmentTarget C s.commitment < proof_target
          · obtain ⟨e, he⟩ := (verifyProverPolynomials_error_iff C ec
              proof_target cs.solutions hTot).mpr h5
            have hv : CoinbasePuzzle.verify C p maxSolutions cs ec
                coinbase_target proof_target = .error e := by
              unfold CoinbasePuzzle.verify
              rw [if_neg hne1, if_neg h2, if_neg h3, if_neg h4, he]
            exact ⟨⟨fun _ => Or.inr (Or.inr (Or.inr (Or.inr h5))),
              fun _ => ⟨e, hv⟩⟩,
              fun hnd => absurd (Or.inr (Or.inr (Or.inr (Or.inr h5)))) hnd⟩
          · have htarget : ∀ s ∈ cs.solutions,
                proof_target ≤ commitmentTarget C s.commitment := by
              intro s hs
              exact le_of_not_lt fun hc => h5 ⟨s, hs, hc⟩
            have hv := verify_ok_case C p maxSolutions cs ec coinbase_target
              proof_target h1 h2 h3 h4 htarget hTot
            constructor
            · constructor
              · rintro ⟨e, he⟩
                rw [hv] at he
                cases he
              · rintro (h | h | h | h | h)
                · exact absurd h h1
                · exact absurd h h2
                · exact absurd h h3
                · exact absurd h h4
                · exact absurd h h5
            · exact fun _ => ⟨_, hv⟩

/-- Witness for C2: a structurally valid singleton solution with zero targets
passes all checks and yields `Ok`. -/
theorem verify_error_conditions_witness :
    ∃ b, CoinbasePuzzle.verify cryptoZ (CoinbasePuzzle.Verifier ()) 5
        ⟨[⟨0, 0, 7⟩], false⟩ ecZ 0 0 = .ok b :=
  (verify_error_conditions cryptoZ (CoinbasePuzzle.Verifier ()) 5
      ⟨[⟨0, 0, 7⟩], false⟩ ecZ 0 0 (by decide)).2 (by decide)

/-- C3: after passing the structural and difficulty checks, `verify`
recomputes the challenges and the accumulator point via `hash_commitments`
over the commitments in list order, and returns the boolean of the single
pairing check `KZG10::check(vk, C*, z*, v*, proof)` with
`v* = (Σ r_i · f_i(z*)) · g(z*)` over the recomputed prover polynomials and
`C* = MSM(C_1…C_k, r_1…r_k)`, as stated by `verifySpecVerdict`. -/
theorem verify_accumulator_formula {F G1 Pf VK : Type} [CommRing F]
    (C : Crypto F G1 Pf VK) (p : CoinbasePuzzle F G1 Pf VK)
    (maxSolutions : ℕ) (cs : CoinbaseSolution G1 Pf) (ec : EpochChallenge F)
    (coinbase_target proof_target : ℕ)
    (hne : cs.solutions ≠ [])
    (hlen : ¬ maxSolutions < cs.solutions.length)
    (hhide : ¬ C.is_hiding cs.proof = true)
    (hcum : ¬ cumulativeTarget C cs < coinbase_target)
    (htarget : ∀ s ∈ cs.solutions, proof_target ≤ commitmentTarget C s.commitment)
    (hTot : ∀ s ∈ cs.solutions,
      (C.to_prover_polynomial ec s.address s.nonce).isSome = true) :
    CoinbasePuzzle.verify C p maxSolutions cs ec coinbase_target proof_target =
      .ok (verifySpecVerdict C (CoinbasePuzzle.verifyingKeyOf p) ec cs) :=
  verify_ok_case C p maxSolutions cs ec coinbase_target proof_target
    hne hlen hhide hcum htarget hTot

/-- Witness for C3 on a concrete two-solution coinbase solution over `ℤ`. -/
theorem verify_accumulator_formula_witness :
    CoinbasePuzzle.verify cryptoZ (CoinbasePuzzle.Prover pkZ) 5
        ⟨[⟨0, 0, 7⟩, ⟨1, 2, 9⟩], false⟩ ecZ 0 0 =
      .ok (verifySpecVerdict cryptoZ
        (CoinbasePuzzle.verifyingKeyOf (CoinbasePuzzle.Prover pkZ)) ecZ
        ⟨[⟨0, 0, 7⟩, ⟨1, 2, 9⟩], false⟩) :=
  verify_accumulator_formula cryptoZ (CoinbasePuzzle.Prover pkZ) 5
    ⟨[⟨0, 0, 7⟩, ⟨1, 2, 9⟩], false⟩ ecZ 0 0 (by decide) (by decide) (by decide)
    (by decide) (by decide) (by decide)

/-- C8: for every in-bounds input list, `accumulate` does not return an error
when some solutions carry hiding proofs: those solutions are silently
excluded, the returned `CoinbaseSolution`'s partial solutions are exactly the
non-hiding input solutions in their original order, and the Fiat–Shamir
challenges (inside `accumulatedProof`) are derived over only the retained
commitments. -/
theorem accumulate_filters_hiding {F G1 Pf VK : Type} [CommRing F]
    (C : Crypto F G1 Pf VK) (pk : CoinbaseProvingKey F G1 Pf VK)
    (maxSolutions : ℕ) (ec : EpochChallenge F)
    (sols : List (ProverSolution G1 Pf))
    (hne : sols ≠ [])
    (hlen : sols.length ≤ maxSolutions)
    (hTot : ∀ s ∈ sols, C.is_hiding s.proof = false →
      (C.to_prover_polynomial ec s.solution.address s.solution.nonce).isSome = true)
    (hOpen : ∀ evals z v, C.is_hiding (pk.open_lagrange evals z v) = false) :
    CoinbasePuzzle.accumulate C (.Prover pk) maxSolutions ec sols =
      .ok ⟨(sols.filter fun s => !C.is_hiding s.proof).map fun s => s.solution,
        accumulatedProof C pk ec
          ((sols.filter fun s => !C.is_hiding s.proof).map fun s =>
            (C.to_prover_polynomial ec s.solution.address s.solution.nonce).getD [])
          ((sols.filter fun s => !C.is_hiding s.proof).map fun s =>
            s.solution)⟩ := by
  unfold CoinbasePuzzle.accumulate
  rw [if_neg (by simp [List.isEmpty_iff, hne]), if_neg (not_lt.mpr hlen),
    accumulateCollect_some C ec sols hTot]
  show CoinbasePuzzle.accumulateTail C pk ec
      ((sols.filter fun s => !C.is_hiding s.proof).map fun s =>
        ((C.to_prover_polynomial ec s.solution.address s.solution.nonce).getD [],
          s.solution)) = _
  rw [accumulateTail_ok C pk ec _ hOpen]
  simp [List.map_map, Function.comp_def]

/-- Witness for C8: a batch with one hiding and one non-hiding solution is
accepted and keeps only the non-hiding one. -/
theorem accumulate_filters_hiding_witness :
    CoinbasePuzzle.accumulate cryptoZ (CoinbasePuzzle.Prover pkZ) 5 ecZ
        [⟨⟨1, 2, 3⟩, true⟩, ⟨⟨4, 5, 6⟩, false⟩] =
      .ok ⟨(([⟨⟨1, 2, 3⟩, true⟩, ⟨⟨4, 5, 6⟩, false⟩] :
            List (ProverSolution ℤ Bool)).filter
              fun s => !cryptoZ.is_hiding s.proof).map fun s => s.solution,
        accumulatedProof cryptoZ pkZ ecZ
          ((([⟨⟨1, 2, 3⟩, true⟩, ⟨⟨4, 5, 6⟩, false⟩] :
            List (ProverSolution ℤ Bool)).filter
              fun s => !cryptoZ.is_hiding s.proof).map fun s =>
            (cryptoZ.to_prover_polynomial ecZ s.solution.address
              s.solution.nonce).getD [])
          ((([⟨⟨1, 2, 3⟩, true⟩, ⟨⟨4, 5, 6⟩, false⟩] :
            List (ProverSolution ℤ Bool)).filter
              fun s => !cryptoZ.is_hiding s.proof).map fun s => s.solution)⟩ :=
  accumulate_filters_hiding cryptoZ pkZ 5 ecZ
    [⟨⟨1, 2, 3⟩, true⟩, ⟨⟨4, 5, 6⟩, false⟩] (by decide) (by decide) (by decide)
    (fun _ _ _ => rfl)

lemma verifyTail_error_kind {F G1 Pf VK : Type} [CommRing F]
    (C : Crypto F G1 Pf VK) (vk : VK) (ec : EpochChallenge F)
    (cs : CoinbaseSolution G1 Pf) (pp : List (List F)) (e : PuzzleError)
    (he : CoinbasePuzzle.verifyTail C vk ec cs pp = .error e) :
    e = .malformedChallenge := by
  unfold CoinbasePuzzle.verifyTail at he
  dsimp only at he
  split at he
  · split at he
    · injection he with h
      exact h.symm
    · cases he
  · injection he with h
    exact h.symm

/-- C9 (counterexample): the claim states that `accumulate` returns a
`WrongRole` error on every input whenever the handle is the `Verifier`
variant; on the empty list the emptiness check fires first and the error is
`EmptySolutions`, not `WrongRole`. -/
theorem accumulate_role_counterexample :
    CoinbasePuzzle.accumulate cryptoZ (CoinbasePuzzle.Verifier ()) 5 ecZ
        ([] : List (ProverSolution ℤ Bool)) = .failed .emptySolutions ∧
    (AccResult.failed PuzzleError.emptySolutions : AccResult ℤ Bool) ≠
      .failed .wrongRole := by
  exact ⟨rfl, by decide⟩

/-- C9 (amended): `prove` and `prove_abm` return a `WrongRole` error on every
input whenever the handle is the `Verifier` variant; `accumulate` does so
whenever additionally the input list is non-empty and within bounds (its
emptiness and size checks run first); and `verify` never fails for role
reasons — it retrieves a verifying key under either variant, the `Prover`
variant supplying its embedded verifying key. -/
theorem role_errors_amended {F G1 Pf VK : Type} [CommRing F]
    (C : Crypto F G1 Pf VK) (vk : VK) (pk : CoinbaseProvingKey F G1 Pf VK)
    (p : CoinbasePuzzle F G1 Pf VK) (t maxSolutions coinbase_target proof_target : ℕ)
    (ec : EpochChallenge F) (address nonce : ℕ)
    (sols : List (ProverSolution G1 Pf)) (cs : CoinbaseSolution G1 Pf) :
    CoinbasePuzzle.prove C (.Verifier vk) ec address nonce =
      .error .wrongRole ∧
    CoinbasePuzzle.prove_abm C (.Verifier vk) t ec address nonce =
      .error .wrongRole ∧
    (sols ≠ [] → sols.length ≤ maxSolutions →
      CoinbasePuzzle.accumulate C (.Verifier vk) maxSolutions ec sols =
        .failed .wrongRole) ∧
    CoinbasePuzzle.verifyingKeyOf (CoinbasePuzzle.Prover pk) =
      pk.verifying_key ∧
    (∀ e, CoinbasePuzzle.verify C p maxSolutions cs ec coinbase_target
        proof_target = .error e → e ≠ .wrongRole) := by
  refine ⟨rfl, rfl, ?_, rfl, ?_⟩
  · intro hne hlen
    unfold CoinbasePuzzle.accumulate
    rw [if_neg (by simp [List.isEmpty_iff, hne]), if_neg (not_lt.mpr hlen)]
  · intro e he
    unfold CoinbasePuzzle.verify at he
    split at he
    · injection he with h
      subst h
      decide
    · split at he
      · injection he with h
        subst h
        decide
      · split at he
        · injection he with h
          subst h
          decide
        · split at he
          · injection he with h
            subst h
            decide
          · split at he
            · rename_i e' heq
              injection he with h
              subst h
              rcases verifyProverPolynomials_error_kind C ec proof_target
                cs.solutions e' heq with h' | h' <;> (subst h'; decide)
            · have hm := verifyTail_error_kind C
                (CoinbasePuzzle.verifyingKeyOf p) ec cs _ e he
              subst hm
              decide

/-- Witness for C9 (amended) on concrete inputs over `ℤ`. -/
theorem role_errors_amended_witness :
    CoinbasePuzzle.prove cryptoZ (CoinbasePuzzle.Verifier ()) ecZ 0 0 =
      .error .wrongRole ∧
    CoinbasePuzzle.prove_abm cryptoZ (CoinbasePuzzle.Verifier ()) 0 ecZ 0 0 =
      .error .wrongRole ∧
    CoinbasePuzzle.accumulate cryptoZ (CoinbasePuzzle.Verifier ()) 5 ecZ
        [⟨⟨0, 0, 0⟩, false⟩] = .failed .wrongRole ∧
    CoinbasePuzzle.verify cryptoZ (CoinbasePuzzle.Verifier ()) 5
        ⟨[⟨0, 0, 7⟩], false⟩ ecZ 0 0 ≠ .error .wrongRole := by
  obtain ⟨h1, h2, h3, _, h5⟩ := role_errors_amended cryptoZ () pkZ
    (CoinbasePuzzle.Verifier ()) 0 5 0 0 ecZ 0 0 [⟨⟨0, 0, 0⟩, false⟩]
    ⟨[⟨0, 0, 7⟩], false⟩
  refine ⟨h1, h2, h3 (by decide) (by decide), fun hc => ?_⟩
  exact h5 _ hc rfl

/-- C10: in `accumulate`, the prover polynomial of a retained (non-hiding)
solution is derived with an unconditional `unwrap`: if the derivation fails
for any retained solution the call panics rather than returning `Err`, and
when it succeeds for every retained solution the call never panics. -/
theorem accumulate_unwrap_panics {F G1 Pf VK : Type} [CommRing F]
    (C : Crypto F G1 Pf VK) (pk : CoinbaseProvingKey F G1 Pf VK)
    (maxSolutions : ℕ) (ec : EpochChallenge F)
    (sols : List (ProverSolution G1 Pf))
    (hlen : sols.length ≤ maxSolutions) :
    ((∃ s ∈ sols, C.is_hiding s.proof = false ∧
        C.to_prover_polynomial ec s.solution.address s.solution.nonce = none) →
      CoinbasePuzzle.accumulate C (.Prover pk) maxSolutions ec sols =
        .panicked) ∧
    ((∀ s ∈ sols, C.is_hiding s.proof = false →
        (C.to_prover_polynomial ec s.solution.address s.solution.nonce).isSome = true) →
      CoinbasePuzzle.accumulate C (.Prover pk) maxSolutions ec sols ≠
        .panicked) := by
  constructor
  · intro hex
    have hne : sols ≠ [] := by
      obtain ⟨x, hx, -, -⟩ := hex
      exact List.ne_nil_of_mem hx
    unfold CoinbasePuzzle.accumulate
    rw [if_neg (by simp [List.isEmpty_iff, hne]), if_neg (not_lt.mpr hlen),
      accumulateCollect_none C ec sols hex]
  · intro hTot
    by_cases hne : sols = []
    · subst hne
      intro hc
      cases hc
    · unfold CoinbasePuzzle.accumulate
      rw [if_neg (by simp [List.isEmpty_iff, hne]), if_neg (not_lt.mpr hlen),
        accumulateCollect_some C ec sols hTot]
      exact accumulateTail_ne_panicked C pk ec _

/-- Witness for C10: with an always-failing derivation, a singleton
non-hiding batch panics. -/
theorem accumulate_unwrap_panics_witness :
    CoinbasePuzzle.accumulate cryptoZfail (CoinbasePuzzle.Prover pkZ) 5 ecZ
        [⟨⟨0, 0, 0⟩, false⟩] = .panicked :=
  (accumulate_unwrap_panics cryptoZfail pkZ 5 ecZ [⟨⟨0, 0, 0⟩, false⟩]
      (by decide)).1 ⟨⟨⟨0, 0, 0⟩, false⟩, by decide, rfl, rfl⟩
